import Mathlib

/-!
Verification development for the `epimodel` NPI-effect models
(`epimodel/pymc3_models/cm_effect/models.py`).

The Python source declares several PyMC3 model variants.  We shallowly embed
the deterministic parts the specification talks about:

* the observed-index / mask-mutation loops run in each variant's `__init__`
  (`all_observed_active`, `all_observed_deaths`),
* the serial-interval growth transform and `CMReduction`,
* the infection curve `Infected = exp(InitialSize_log + cumsum(Growth))`,
* the dual-delay variant's `short_rs` / `long_rs` region split and its
  in-place zeroing of the `Symptomatic Testing` column of `ActiveCMs`,
* the ICL variant's day-by-day renewal recursion, and
* the numpy reshape/fancy-indexing used to gather observed values for the
  negative-binomial likelihood terms.

Data arrays are embedded with exact values (ℚ) plus explicit NaN flags;
real-valued transforms use ℝ and `Real.exp`.
-/

namespace Epimodel

/-- A dataset as consumed by the model constructors: shapes, the two
observation masks, NaN flags of the cumulative `Confirmed` / `Deaths`
arrays (only NaN-ness of those arrays is ever read), the observed
`NewCases` / `NewDeaths` values, and the `ActiveCMs[region, npi, day]`
tensor. -/
structure Dataset where
  nRs : ℕ
  nDs : ℕ
  newCasesMask : ℕ → ℕ → Bool
  newDeathsMask : ℕ → ℕ → Bool
  confirmedIsNaN : ℕ → ℕ → Bool
  deathsIsNaN : ℕ → ℕ → Bool
  newCases : ℕ → ℕ → ℚ
  newDeaths : ℕ → ℕ → ℚ
  activeCMs : ℕ → ℕ → ℕ → ℚ

/-- `CMDelayCut = 30`, set identically in every variant's `__init__`. -/
def CMDelayCut : ℕ := 30

/-- The `(r, d)` cells visited by the double loop
`for r in range(nRs): for d in range(nDs)`, in iteration order. -/
def cellList (nRs nDs : ℕ) : List (ℕ × ℕ) :=
  (List.range nRs).flatMap fun r => (List.range nDs).map fun d => (r, d)

/-- One iteration of the observed-index loop shared by the non-ICL variants:
if the cell is unmasked and satisfies the extra conditions, append the
flattened index `r * nDs + d`; otherwise set the mask flag of the cell. -/
def obsStep (nDs : ℕ) (extra : ℕ → ℕ → Bool) :
    List ℕ × (ℕ → ℕ → Bool) → ℕ × ℕ → List ℕ × (ℕ → ℕ → Bool) :=
  fun st c =>
    if st.2 c.1 c.2 = false ∧ extra c.1 c.2 = true then
      (st.1 ++ [c.1 * nDs + c.2], st.2)
    else
      (st.1, fun r d => if r = c.1 ∧ d = c.2 then true else st.2 r d)

/-- The observed-index loop: fold `obsStep` over all cells starting from an
empty index list and the upstream mask. -/
def obsLoop (nRs nDs : ℕ) (extra : ℕ → ℕ → Bool) (mask0 : ℕ → ℕ → Bool) :
    List ℕ × (ℕ → ℕ → Bool) :=
  (cellList nRs nDs).foldl (obsStep nDs extra) ([], mask0)

/-- Mask-independent part of the cases test:
`d > self.CMDelayCut and not np.isnan(self.d.Confirmed.data[r, d]) and d < (self.nDs - 7)`. -/
def casesExtra (D : Dataset) (r d : ℕ) : Bool :=
  decide (CMDelayCut < d) && !D.confirmedIsNaN r d && decide (d + 7 < D.nDs)

/-- Mask-independent part of the deaths test:
`d > self.CMDelayCut and not np.isnan(self.d.Deaths.data[r, d])`. -/
def deathsExtra (D : Dataset) (r d : ℕ) : Bool :=
  decide (CMDelayCut < d) && !D.deathsIsNaN r d

/-- The full inclusion predicate of the cases channel, reading the upstream
mask (each cell's mask is read before the loop can overwrite it). -/
def casesPred (D : Dataset) (r d : ℕ) : Bool :=
  !D.newCasesMask r d && casesExtra D r d

/-- The full inclusion predicate of the deaths channel. -/
def deathsPred (D : Dataset) (r d : ℕ) : Bool :=
  !D.newDeathsMask r d && deathsExtra D r d

/-- `self.all_observed_active` together with the mutated `NewCases.mask`
(the loop of `CMCombined_Final.__init__` and of the other variants sharing
that routine). -/
def observedActiveLoop (D : Dataset) : List ℕ × (ℕ → ℕ → Bool) :=
  obsLoop D.nRs D.nDs (casesExtra D) D.newCasesMask

/-- `self.all_observed_deaths` together with the mutated `NewDeaths.mask`. -/
def observedDeathsLoop (D : Dataset) : List ℕ × (ℕ → ℕ → Bool) :=
  obsLoop D.nRs D.nDs (deathsExtra D) D.newDeathsMask

/-- The index list `self.all_observed_active`. -/
def allObservedActive (D : Dataset) : List ℕ := (observedActiveLoop D).1

/-- The index list `self.all_observed_deaths`. -/
def allObservedDeaths (D : Dataset) : List ℕ := (observedDeathsLoop D).1

/-- Combined predicate the loop effectively tests against the initial mask. -/
def loopPred (extra mask0 : ℕ → ℕ → Bool) (r d : ℕ) : Bool :=
  !mask0 r d && extra r d


/-! ### ICL-variant observed-index loop

`CMCombined_Final_ICL.__init__` iterates `for r in range(nRs): for d in
range(nODs)` with `actual_day = ObservedDaysIndx[d] = CMDelayCut + d`,
appends the `nODs`-flattened index `r * nODs + d` when the cell is unmasked
and the cumulative count is not NaN, and otherwise sets the mask at
`(r, actual_day)`.  Cases and deaths are handled in the same loop on
disjoint state. -/

/-- `self.nODs = len(np.arange(CMDelayCut, nDs))`. -/
def nODs (D : Dataset) : ℕ := D.nDs - CMDelayCut

/-- One iteration of the ICL observed-index loop for one channel, at cell
`(r, d)` with `d` ranging over observed days. -/
def iclStep (nODsv : ℕ) (isNaN : ℕ → ℕ → Bool) :
    List ℕ × (ℕ → ℕ → Bool) → ℕ × ℕ → List ℕ × (ℕ → ℕ → Bool) :=
  fun st c =>
    let a := CMDelayCut + c.2
    if st.2 c.1 a = false ∧ (!isNaN c.1 a) = true then
      (st.1 ++ [c.1 * nODsv + c.2], st.2)
    else
      (st.1, fun r d => if r = c.1 ∧ d = a then true else st.2 r d)

/-- ICL cases loop: index list plus mutated `NewCases.mask`. -/
def iclObservedActiveLoop (D : Dataset) : List ℕ × (ℕ → ℕ → Bool) :=
  (cellList D.nRs (nODs D)).foldl (iclStep (nODs D) D.confirmedIsNaN)
    ([], D.newCasesMask)

/-- ICL deaths loop: index list plus mutated `NewDeaths.mask`. -/
def iclObservedDeathsLoop (D : Dataset) : List ℕ × (ℕ → ℕ → Bool) :=
  (cellList D.nRs (nODs D)).foldl (iclStep (nODs D) D.deathsIsNaN)
    ([], D.newDeathsMask)

/-- `self.all_observed_active` of the ICL variant. -/
def iclAllObservedActive (D : Dataset) : List ℕ := (iclObservedActiveLoop D).1

/-! ### Serial-interval transform and `CMReduction`

These quantities are real-valued (they involve `Real.exp`), hence the
noncomputable section; all concrete evaluations of them are done by `simp`
with `Real.exp` lemmas. -/

noncomputable section RealModel

/-- `SI_ALPHA = 7.935` (models.py line 37). -/
def SI_ALPHA : ℝ := 7.935

/-- `SI_BETA = 1.188` (models.py line 38). -/
def SI_BETA : ℝ := 1.188

/-- Default `serial_interval_mean = SI_ALPHA / SI_BETA`. -/
def serialIntervalMeanDefault : ℝ := SI_ALPHA / SI_BETA

/-- Default `serial_interval_sigma = np.sqrt(SI_ALPHA / SI_BETA ** 2)`. -/
def serialIntervalSigmaDefault : ℝ := Real.sqrt (SI_ALPHA / SI_BETA ^ 2)

/-- `si_beta = serial_interval_mean / serial_interval_sigma ** 2`
(models.py line 998). -/
def si_beta (mean sigma : ℝ) : ℝ := mean / sigma ^ 2

/-- `si_alpha = serial_interval_mean ** 2 / serial_interval_sigma ** 2`
(models.py line 999). -/
def si_alpha (mean sigma : ℝ) : ℝ := mean ^ 2 / sigma ^ 2

/-- `ExpectedGrowth = si_beta * (exp(ExpectedLogR / si_alpha) - 1)` applied
pointwise to the `[region, day]` field `ExpectedLogR`
(models.py lines 1001-1005; `T.ones((nORs, nDs))` broadcasts the 1). -/
def expectedGrowth (mean sigma : ℝ) (expectedLogR : ℕ → ℕ → ℝ) (r d : ℕ) : ℝ :=
  si_beta mean sigma * (Real.exp (expectedLogR r d / si_alpha mean sigma) - 1)

/-- `CMReduction = T.exp((-1.0) * CM_Alpha)` per NPI, in every variant that
declares `CM_Alpha` (e.g. models.py line 972). -/
def cmReduction (cmAlpha : ℕ → ℝ) (i : ℕ) : ℝ := Real.exp ((-1 : ℝ) * cmAlpha i)

/-- The additive variant instead sets
`CM_Beta = AllBeta[1:]` and `CMReduction = CM_Beta`
(models.py lines 3788-3790): the reduction IS the Dirichlet weight. -/
def cmReductionAdditive (allBeta : ℕ → ℝ) (i : ℕ) : ℝ := allBeta (i + 1)

/-! ### Infection curve of the growth-based variants -/

/-- `InfectedCases = exp(InitialSizeCases_log + GrowthCases.cumsum(axis=1))`
(models.py lines 1014-1016); `cumsum` is inclusive, so day `d` sums growths
of days `0..d`.  No clipping or clamping is applied anywhere. -/
def infectedCases (initialSizeLog : ℕ → ℝ) (growthCases : ℕ → ℕ → ℝ)
    (r d : ℕ) : ℝ :=
  Real.exp (initialSizeLog r + ∑ j ∈ Finset.range (d + 1), growthCases r j)

end RealModel

/-! ### Dual-delay variant: region split and `ActiveCMs` mutation -/

/-- Sum of the `Symptomatic Testing` activity of region `r` over all days:
`np.sum(data.ActiveCMs[:, testing_indx, :], axis=-1)`. -/
def testingSum (D : Dataset) (testingIndx r : ℕ) : ℚ :=
  ∑ d ∈ Finset.range D.nDs, D.activeCMs r testingIndx d

/-- `self.short_rs = np.nonzero(np.sum(...) > 1)[0]` (models.py line 1651). -/
def short_rs (D : Dataset) (testingIndx : ℕ) : List ℕ :=
  (List.range D.nRs).filter fun r => 1 < testingSum D testingIndx r

/-- `self.long_rs = np.nonzero(np.sum(...) < 1)[0]` (models.py line 1652). -/
def long_rs (D : Dataset) (testingIndx : ℕ) : List ℕ :=
  (List.range D.nRs).filter fun r => testingSum D testingIndx r < 1

/-- The caller's `ActiveCMs` tensor after
`data.ActiveCMs[:, testing_indx, :] = 0` (models.py line 1653): the
`Symptomatic Testing` row is zeroed in place for every region and day. -/
def difDelaysActiveCMs (D : Dataset) (testingIndx : ℕ) (r i d : ℕ) : ℚ :=
  if i = testingIndx then 0 else D.activeCMs r i d

/-- `GrowthReduction[r, d] = sum_npi CM_Alpha[npi] * ActiveCMs[r, npi, d]`
(`T.reshape(CM_Alpha, (1, nCMs, 1)) * ActiveCMs` summed over `axis=1`). -/
noncomputable def growthReduction (nCMs : ℕ) (cmAlpha : ℕ → ℝ) (acms : ℕ → ℕ → ℕ → ℚ)
    (r d : ℕ) : ℝ :=
  ∑ i ∈ Finset.range nCMs, cmAlpha i * (acms r i d : ℝ)

/-! ### numpy reshape / fancy indexing used by the likelihood gathers -/

/-- Row-major flattening of the full `[nRs, nDs]` data array:
`data.reshape((nORs * nDs,))` reads the rows in order. -/
def flatData (D : Dataset) (a : ℕ → ℕ → ℚ) : List ℚ :=
  (List.range D.nRs).flatMap fun r => (List.range D.nDs).map fun d => a r d

/-- Row-major flattening of the column-sliced array `data[:, CMDelayCut:]`. -/
def flatDataSliced (D : Dataset) (a : ℕ → ℕ → ℚ) : List ℚ :=
  (List.range D.nRs).flatMap fun r =>
    (List.range (D.nDs - CMDelayCut)).map fun d => a r (CMDelayCut + d)

/-- `xs.reshape((n,))`: succeeds iff the element count already equals `n`
(numpy raises `ValueError: cannot reshape` otherwise). -/
def npReshape1d (xs : List ℚ) (n : ℕ) : Option (List ℚ) :=
  if xs.length = n then some xs else none

/-- numpy fancy indexing `xs[idx]`: succeeds iff every index is in bounds
(numpy raises `IndexError` otherwise). -/
def npFancyIndex (xs : List ℚ) (idx : List ℕ) : Option (List ℚ) :=
  if idx.all fun i => i < xs.length then
    some (idx.map fun i => xs.getD i 0)
  else none

/-- Observed `NewDeaths` values gathered by the learned-`Phi` branch:
`self.d.NewDeaths.data.reshape((self.nORs * self.nDs,))[self.all_observed_deaths]`
(models.py line 1076). -/
def observedDeathsLearned (D : Dataset) : Option (List ℚ) :=
  (npReshape1d (flatData D D.newDeaths) (D.nRs * D.nDs)).bind fun xs =>
    npFancyIndex xs (allObservedDeaths D)

/-- Observed `NewDeaths` values gathered by the fixed-`deaths_noise` branch:
`self.d.NewDeaths.data[:, self.CMDelayCut:].reshape((self.nORs * self.nDs,))[self.all_observed_deaths]`
(models.py lines 1085-1086). -/
def observedDeathsFixedNoise (D : Dataset) : Option (List ℚ) :=
  (npReshape1d (flatDataSliced D D.newDeaths) (D.nRs * D.nDs)).bind fun xs =>
    npFancyIndex xs (allObservedDeaths D)

/-! ### ICL variant: explicit discrete renewal recursion

`CMCombined_Final_ICL.build_model` (models.py lines 5268-5286) runs, for
each channel `c ∈ {cases, deaths}` and region `r` independently, the
scalar recursion embedded below.  A buffer of length `nODs + SI.size` is
zero-initialised, positions `SI.size - 7 .. SI.size - 1` (the 7-day
`conv_padding` seed window immediately before observed day 0) are set to
`exp(InitialSize_log)`, and then, sequentially in `d`, position
`d + SI.size` is set to
`exp(LogR[d]) * sum_j buffer[d + j] * SI_rev[j]`.
We model the buffer as a list that grows by one entry per day; this is
faithful because step `d` only reads positions `d .. d + SI.size - 1`,
all of which are already final. -/

/-- The fixed serial-interval mass function `self.SI` of the ICL variant
(models.py lines 5151-5158), as exact rationals. -/
def SIlist : List ℚ :=
  [5.86777778e-4, 1.15317556e-2, 5.22088556e-2, 1.14080678e-1,
   1.62762756e-1, 1.76006922e-1, 1.56763867e-1, 1.21060233e-1,
   8.38630333e-2, 5.32850556e-2, 3.15776111e-2, 1.76515889e-2,
   9.38466667e-3, 4.79226667e-3, 2.36040000e-3, 1.13427778e-3,
   5.26733333e-4, 2.38822222e-4, 1.03755556e-4, 4.56222222e-5,
   2.01333333e-5, 7.67777778e-6, 3.84444444e-6, 1.70000000e-6,
   5.66666667e-7, 2.22222222e-7, 1.11111111e-7, 2.22222222e-8,
   1.11111111e-8, 3.33333333e-8]

/-- `filter_size = self.SI.size` (= 30). -/
def SIsize : ℕ := SIlist.length

/-- `conv_padding = 7` (models.py line 5271). -/
def convPadding : ℕ := 7

/-- The serial-interval value `SI[k]` (0-based) as a real number. -/
noncomputable def SIr (k : ℕ) : ℝ := ((SIlist.getD k 0 : ℚ) : ℝ)

noncomputable section ICLRecursion

/-- The seed segment of the buffer (positions `0 .. SI.size - 1`): zeros,
except `exp(InitialSize_log)` on the last `conv_padding` positions
(models.py lines 5273-5276). -/
def iclSeed (initLog : ℝ) : List ℝ :=
  (List.range SIsize).map fun i =>
    if SIsize - convPadding ≤ i then Real.exp initLog else 0

/-- Buffer after `n` loop iterations: the seed segment followed by the
infection values of observed days `0 .. n - 1`.  Iteration `n` appends
`exp(LogR[n]) * sum_{j < SI.size} buffer[n + j] * SI_rev[j]` with
`SI_rev[j] = SI[SI.size - 1 - j]` (models.py lines 5280-5284). -/
def iclBufList (logR : ℕ → ℝ) (initLog : ℝ) : ℕ → List ℝ
  | 0 => iclSeed initLog
  | n + 1 =>
      let b := iclBufList logR initLog n
      b ++ [Real.exp (logR n) *
        ∑ j ∈ Finset.range SIsize, b.getD (n + j) 0 * SIr (SIsize - 1 - j)]

/-- `Infected` at observed day `d`: buffer position `d + SI.size`
(`res[:, :, SI.size:]`, models.py lines 5299-5307). -/
def iclInfected (logR : ℕ → ℝ) (initLog : ℝ) (d : ℕ) : ℝ :=
  (iclBufList logR initLog (d + 1)).getD (d + SIsize) 0

/-- The per-channel, per-region infection tensor of the ICL variant; the
tensorised source recursion acts pointwise in `(c, r)`, with shared `SI`
but per-channel/region `LogR` and `InitialSize_log`. -/
def iclInfectedCRD (logR : ℕ → ℕ → ℕ → ℝ) (initLog : ℕ → ℕ → ℝ)
    (c r d : ℕ) : ℝ :=
  iclInfected (logR c r) (initLog c r) d

/-- The day-`d - k` value the renewal sum reads: the infection value when
`d - k ≥ 0`, the seed `exp(InitialSize_log)` when `d - k` is within the
7-day window before day 0, and zero earlier. -/
def iclHist (logR : ℕ → ℝ) (initLog : ℝ) (d k : ℕ) : ℝ :=
  if k ≤ d then iclInfected logR initLog (d - k)
  else if k ≤ d + convPadding then Real.exp initLog
  else 0

end ICLRecursion

/-! ### Concrete datasets used to instantiate the theorems -/

/-- One region, 40 days, nothing masked, no NaNs, constant observations
(`NewCases = 5`, `NewDeaths = 2`), no NPI active. -/
def D1 : Dataset where
  nRs := 1
  nDs := 40
  newCasesMask := fun _ _ => false
  newDeathsMask := fun _ _ => false
  confirmedIsNaN := fun _ _ => false
  deathsIsNaN := fun _ _ => false
  newCases := fun _ _ => 5
  newDeaths := fun _ _ => 2
  activeCMs := fun _ _ _ => 0

/-- One region, 38 days (hence 8 observed days in the ICL variant),
nothing masked, no NaNs. -/
def D0 : Dataset where
  nRs := 1
  nDs := 38
  newCasesMask := fun _ _ => false
  newDeathsMask := fun _ _ => false
  confirmedIsNaN := fun _ _ => false
  deathsIsNaN := fun _ _ => false
  newCases := fun _ _ => 5
  newDeaths := fun _ _ => 2
  activeCMs := fun _ _ _ => 0

/-- Two regions, 40 days; NPI 0 (`Symptomatic Testing`) is active in region 0
on days 0-2 (summed activity 3) and never in region 1 (summed activity 0). -/
def D4 : Dataset where
  nRs := 2
  nDs := 40
  newCasesMask := fun _ _ => false
  newDeathsMask := fun _ _ => false
  confirmedIsNaN := fun _ _ => false
  deathsIsNaN := fun _ _ => false
  newCases := fun _ _ => 5
  newDeaths := fun _ _ => 2
  activeCMs := fun r i d => if r = 0 ∧ i = 0 ∧ d < 3 then 1 else 0

/-- One region, 40 days; NPI 0 (`Symptomatic Testing`) is active on exactly
one day, so its summed activity is exactly 1. -/
def D4b : Dataset where
  nRs := 1
  nDs := 40
  newCasesMask := fun _ _ => false
  newDeathsMask := fun _ _ => false
  confirmedIsNaN := fun _ _ => false
  deathsIsNaN := fun _ _ => false
  newCases := fun _ _ => 5
  newDeaths := fun _ _ => 2
  activeCMs := fun r i d => if r = 0 ∧ i = 0 ∧ d = 0 then 1 else 0

/-- Two regions, 40 days; the `NewDeaths` series of region 0 is fully
masked (e.g. entirely NaN upstream), region 1 is fully observed. -/
def D6 : Dataset where
  nRs := 2
  nDs := 40
  newCasesMask := fun _ _ => false
  newDeathsMask := fun r _ => r == 0
  confirmedIsNaN := fun _ _ => false
  deathsIsNaN := fun _ _ => false
  newCases := fun _ _ => 5
  newDeaths := fun _ _ => 2
  activeCMs := fun _ _ _ => 0

section LoopLemmas

variable (nDs : ℕ) (extra : ℕ → ℕ → Bool) (mask0 : ℕ → ℕ → Bool)


/-- Generic characterisation of the fold: as long as the incoming mask agrees
with `mask0` on all still-unprocessed (pairwise distinct) cells, the
accumulated index list is a filter-map of the cells and the final mask is
`true` exactly on processed cells failing the predicate (other cells keep
the incoming mask). -/
theorem foldl_obsStep_spec (cs : List (ℕ × ℕ)) (acc : List ℕ)
    (mask : ℕ → ℕ → Bool) (hnd : cs.Nodup)
    (hagree : ∀ c ∈ cs, mask c.1 c.2 = mask0 c.1 c.2) :
    (cs.foldl (obsStep nDs extra) (acc, mask)).1 =
      acc ++ (cs.filter fun c => loopPred extra mask0 c.1 c.2).map
        (fun c => c.1 * nDs + c.2) ∧
    ∀ r d, (cs.foldl (obsStep nDs extra) (acc, mask)).2 r d =
      if (r, d) ∈ cs ∧ loopPred extra mask0 r d = false then true else mask r d := by
  induction cs generalizing acc mask with
  | nil => simp
  | cons c rest ih =>
    rcases List.nodup_cons.mp hnd with ⟨hc, hrest⟩
    have hmc : mask c.1 c.2 = mask0 c.1 c.2 := hagree c (List.mem_cons_self c rest)
    by_cases hp : loopPred extra mask0 c.1 c.2 = true
    · -- the cell passes: index appended, mask untouched
      have hp2 := hp
      simp only [loopPred, Bool.and_eq_true, Bool.not_eq_true'] at hp2
      have hstep : obsStep nDs extra (acc, mask) c = (acc ++ [c.1 * nDs + c.2], mask) := by
        have hm0 : mask c.1 c.2 = false := by rw [hmc]; exact hp2.1
        unfold obsStep
        simp [hm0, hp2.2]
      have ihres := ih (acc ++ [c.1 * nDs + c.2]) mask hrest
        (fun c' hc' => hagree c' (List.mem_cons_of_mem c hc'))
      rw [List.foldl_cons, hstep]
      constructor
      · rw [ihres.1]
        simp [hp]
      · intro r d
        rw [ihres.2 r d]
        by_cases hrd : (r, d) = c
        · have hnotmem : ((r, d) ∈ rest) = False := by
            simp only [eq_iff_iff, iff_false]
            intro hmem
            exact hc (hrd ▸ hmem)
          have hr : r = c.1 := by
            have := hrd
            rw [Prod.ext_iff] at this
            exact this.1
          have hd : d = c.2 := by
            have := hrd
            rw [Prod.ext_iff] at this
            exact this.2
          subst hr; subst hd
          simp [hp, hnotmem]
        · have hmem : ((r, d) ∈ c :: rest) ↔ ((r, d) ∈ rest) := by
            constructor
            · intro h
              rcases List.mem_cons.mp h with h | h
              · exact absurd h hrd
              · exact h
            · exact List.mem_cons_of_mem c
          simp only [hmem]
    · -- the cell fails: mask flag set on the cell
      have hp' : loopPred extra mask0 c.1 c.2 = false := by
        simpa using hp
      have hstep : obsStep nDs extra (acc, mask) c =
          (acc, fun r d => if r = c.1 ∧ d = c.2 then true else mask r d) := by
        unfold obsStep
        by_cases hm0 : mask c.1 c.2 = false
        · have hex : extra c.1 c.2 = false := by
            unfold loopPred at hp'
            rw [hmc] at hm0
            simpa [hm0] using hp'
          simp [hm0, hex]
        · simp [hm0]
      have hagree' : ∀ c' ∈ rest,
          (fun r d => if r = c.1 ∧ d = c.2 then true else mask r d) c'.1 c'.2 =
            mask0 c'.1 c'.2 := by
        intro c' hc'
        have hne : c' ≠ c := fun h => hc (h ▸ hc')
        have : ¬(c'.1 = c.1 ∧ c'.2 = c.2) := by
          intro h
          exact hne (Prod.ext h.1 h.2)
        simp only [this, if_false]
        exact hagree c' (List.mem_cons_of_mem c hc')
      have ihres := ih acc
        (fun r d => if r = c.1 ∧ d = c.2 then true else mask r d) hrest hagree'
      rw [List.foldl_cons, hstep]
      constructor
      · rw [ihres.1]
        simp [hp']
      · intro r d
        rw [ihres.2 r d]
        by_cases hrd : (r, d) = c
        · have hnotmem : ((r, d) ∈ rest) = False := by
            simp only [eq_iff_iff, iff_false]
            intro hmem
            exact hc (hrd ▸ hmem)
          have hr : r = c.1 := by
            have := hrd; rw [Prod.ext_iff] at this; exact this.1
          have hd : d = c.2 := by
            have := hrd; rw [Prod.ext_iff] at this; exact this.2
          subst hr; subst hd
          simp [hp', hnotmem]
        · have hne : ¬(r = c.1 ∧ d = c.2) := by
            intro h
            exact hrd (Prod.ext h.1 h.2)
          have hmem : ((r, d) ∈ c :: rest) ↔ ((r, d) ∈ rest) := by
            constructor
            · intro h
              rcases List.mem_cons.mp h with h | h
              · exact absurd h hrd
              · exact h
            · exact List.mem_cons_of_mem c
          simp only [hmem, hne, if_false]

end LoopLemmas

theorem cellList_nodup (nRs nDs : ℕ) : (cellList nRs nDs).Nodup := by
  unfold cellList
  rw [List.nodup_flatMap]
  constructor
  · intro r _
    exact List.Nodup.map (fun d d' h => (Prod.ext_iff.mp h).2) (List.nodup_range nDs)
  · refine List.Pairwise.imp ?_ (List.nodup_range nRs)
    intro r r' hne x hx hx'
    simp only [List.mem_map] at hx hx'
    rcases hx with ⟨d, _, hd⟩
    rcases hx' with ⟨d', _, hd'⟩
    apply hne
    have := hd.trans hd'.symm
    exact (Prod.ext_iff.mp this).1

theorem mem_cellList (nRs nDs : ℕ) (c : ℕ × ℕ) :
    c ∈ cellList nRs nDs ↔ c.1 < nRs ∧ c.2 < nDs := by
  unfold cellList
  simp only [List.mem_flatMap, List.mem_map, List.mem_range]
  constructor
  · rintro ⟨r, hr, d, hd, rfl⟩
    exact ⟨hr, hd⟩
  · rintro ⟨h1, h2⟩
    exact ⟨c.1, h1, c.2, h2, rfl⟩

/-- Flattened-index decoding is unique while the day index stays in range. -/
theorem flat_index_inj {nDs r d r' d' : ℕ} (hd : d < nDs) (hd' : d' < nDs)
    (h : r * nDs + d = r' * nDs + d') : r = r' ∧ d = d' := by
  have hpos : 0 < nDs := by omega
  have h1 : (r * nDs + d) / nDs = r := by
    rw [Nat.mul_comm, Nat.mul_add_div hpos]
    simp [Nat.div_eq_of_lt hd]
  have h2 : (r' * nDs + d') / nDs = r' := by
    rw [Nat.mul_comm, Nat.mul_add_div hpos]
    simp [Nat.div_eq_of_lt hd']
  have hr : r = r' := by rw [← h1, ← h2, h]
  refine ⟨hr, ?_⟩
  subst hr
  omega

/-- Membership characterisation of the generic observed-index loop. -/
theorem mem_obsLoop (nRs nDs : ℕ) (extra mask0 : ℕ → ℕ → Bool)
    {r d : ℕ} (hr : r < nRs) (hd : d < nDs) :
    (r * nDs + d) ∈ (obsLoop nRs nDs extra mask0).1 ↔
      loopPred extra mask0 r d = true := by
  unfold obsLoop
  have hspec := foldl_obsStep_spec nDs extra mask0 (cellList nRs nDs) [] mask0
    (cellList_nodup nRs nDs) (fun _ _ => rfl)
  rw [hspec.1]
  simp only [List.nil_append, List.mem_map, List.mem_filter]
  constructor
  · rintro ⟨c, ⟨hmem, hpred⟩, henc⟩
    have hc := (mem_cellList nRs nDs c).mp hmem
    have := flat_index_inj hc.2 hd henc
    rw [← this.1, ← this.2]
    exact hpred
  · intro hpred
    exact ⟨(r, d), ⟨(mem_cellList nRs nDs (r, d)).mpr ⟨hr, hd⟩, hpred⟩, rfl⟩

/-- Final-mask characterisation of the generic observed-index loop. -/
theorem obsLoop_mask (nRs nDs : ℕ) (extra mask0 : ℕ → ℕ → Bool)
    {r d : ℕ} (hr : r < nRs) (hd : d < nDs) :
    (obsLoop nRs nDs extra mask0).2 r d = !loopPred extra mask0 r d := by
  unfold obsLoop
  have hspec := foldl_obsStep_spec nDs extra mask0 (cellList nRs nDs) [] mask0
    (cellList_nodup nRs nDs) (fun _ _ => rfl)
  rw [hspec.2 r d]
  have hmem : (r, d) ∈ cellList nRs nDs := (mem_cellList nRs nDs (r, d)).mpr ⟨hr, hd⟩
  by_cases hp : loopPred extra mask0 r d = true
  · have hmf : mask0 r d = false := by
      have := hp
      simp only [loopPred, Bool.and_eq_true, Bool.not_eq_true'] at this
      exact this.1
    simp [hp, hmf]
  · have hp' : loopPred extra mask0 r d = false := by simpa using hp
    simp [hp', hmem]


theorem SIsize_eq : SIsize = 30 := by decide

theorem iclSeed_length (initLog : ℝ) : (iclSeed initLog).length = SIsize := by
  unfold iclSeed
  simp

theorem iclBufList_length (logR : ℕ → ℝ) (initLog : ℝ) (n : ℕ) :
    (iclBufList logR initLog n).length = SIsize + n := by
  induction n with
  | zero => simpa using iclSeed_length initLog
  | succ n ih =>
    unfold iclBufList
    simp only [List.length_append, List.length_cons, List.length_nil, ih]
    omega

/-- Values already written are never changed by later iterations. -/
theorem iclBufList_stable (logR : ℕ → ℝ) (initLog : ℝ) {n n' p : ℕ}
    (h : n ≤ n') (hp : p < SIsize + n) :
    (iclBufList logR initLog n').getD p 0 =
      (iclBufList logR initLog n).getD p 0 := by
  induction n' with
  | zero =>
    have : n = 0 := Nat.le_zero.mp h
    rw [this]
  | succ n' ih =>
    rcases Nat.lt_or_ge n (n' + 1) with hlt | hge
    · have hle : n ≤ n' := Nat.lt_succ_iff.mp hlt
      rw [← ih hle]
      show (iclBufList logR initLog n' ++ _).getD p 0 = _
      rw [List.getD_append]
      rw [iclBufList_length]
      omega
    · have : n = n' + 1 := Nat.le_antisymm h hge
      rw [this]

theorem iclSeed_getD (initLog : ℝ) {p : ℕ} (hp : p < SIsize) :
    (iclSeed initLog).getD p 0 =
      if SIsize - convPadding ≤ p then Real.exp initLog else 0 := by
  unfold iclSeed
  rw [List.getD_eq_getElem?_getD]
  rw [List.getElem?_map]
  rw [List.getElem?_range hp]
  rfl

/-- Unfolding: the infection value of day `d` is the value appended by loop
iteration `d`. -/
theorem iclInfected_eq_step (logR : ℕ → ℝ) (initLog : ℝ) (d : ℕ) :
    iclInfected logR initLog d =
      Real.exp (logR d) *
        ∑ j ∈ Finset.range SIsize,
          (iclBufList logR initLog d).getD (d + j) 0 * SIr (SIsize - 1 - j) := by
  unfold iclInfected
  show (iclBufList logR initLog d ++ [_]).getD (d + SIsize) 0 = _
  have hlen : (iclBufList logR initLog d).length = SIsize + d :=
    iclBufList_length logR initLog d
  rw [List.getD_eq_getElem?_getD, List.getElem?_append_right (by omega)]
  rw [hlen]
  have : d + SIsize - (SIsize + d) = 0 := by omega
  rw [this]
  rfl

/-- The buffer cell read at offset `j` of the renewal sum of day `d` is the
history value at lag `k = SI.size - j`. -/
theorem iclBufList_getD_eq_hist (logR : ℕ → ℝ) (initLog : ℝ)
    {d j : ℕ} (hj : j < SIsize) :
    (iclBufList logR initLog d).getD (d + j) 0 =
      iclHist logR initLog d (SIsize - j) := by
  rcases Nat.lt_or_ge (d + j) SIsize with hcase | hcase
  · -- the read falls into the seed segment
    have hk : ¬ SIsize - j ≤ d := by omega
    have hstable := iclBufList_stable logR initLog (Nat.zero_le d)
      (p := d + j) (by omega)
    rw [hstable]
    show (iclSeed initLog).getD (d + j) 0 = _
    rw [iclSeed_getD initLog hcase]
    unfold iclHist
    rw [if_neg hk]
    have : (SIsize - convPadding ≤ d + j) ↔ (SIsize - j ≤ d + convPadding) := by
      omega
    by_cases h2 : SIsize - j ≤ d + convPadding
    · rw [if_pos h2, if_pos (this.mpr h2)]
    · rw [if_neg h2, if_neg (fun hc => h2 (this.mp hc))]
  · -- the read is a previously computed infection value
    have hk : SIsize - j ≤ d := by omega
    set e := d + j - SIsize with he
    have he1 : e + 1 ≤ d := by omega
    have hstable := iclBufList_stable logR initLog he1
      (p := d + j) (by omega)
    rw [hstable]
    unfold iclHist
    rw [if_pos hk]
    have hde : d - (SIsize - j) = e := by omega
    rw [hde]
    unfold iclInfected
    have : e + SIsize = d + j := by omega
    rw [this]

/-- Buffers computed from `LogR` fields that agree on days `< n` coincide. -/
theorem iclBufList_congr (logR logR' : ℕ → ℝ) (initLog : ℝ) (n : ℕ)
    (h : ∀ d' < n, logR d' = logR' d') :
    iclBufList logR initLog n = iclBufList logR' initLog n := by
  induction n with
  | zero => rfl
  | succ n ih =>
    have hrec := ih fun d' hd' => h d' (Nat.lt_succ_of_lt hd')
    show iclBufList logR initLog n ++ _ = iclBufList logR' initLog n ++ _
    rw [hrec, h n (Nat.lt_succ_self n)]

/-- The explicit renewal equation: for every observed day `d`,
`Infected[d] = exp(LogR[d]) * sum_{k=1..|SI|} hist(d, k) * SI[k]`
(with 1-based `SI[k]` written as the 0-based `SIr (k - 1)`). -/
theorem iclInfected_renewal (logR : ℕ → ℝ) (initLog : ℝ) (d : ℕ) :
    iclInfected logR initLog d =
      Real.exp (logR d) *
        ∑ k ∈ Finset.Icc 1 SIsize, iclHist logR initLog d k * SIr (k - 1) := by
  rw [iclInfected_eq_step]
  congr 1
  refine Finset.sum_nbij' (fun j => SIsize - j) (fun k => SIsize - k)
    ?_ ?_ ?_ ?_ ?_
  · intro j hj
    rw [Finset.mem_range] at hj
    rw [Finset.mem_Icc]
    dsimp only
    omega
  · intro k hk
    rw [Finset.mem_Icc] at hk
    rw [Finset.mem_range]
    dsimp only
    omega
  · intro j hj
    rw [Finset.mem_range] at hj
    dsimp only
    omega
  · intro k hk
    rw [Finset.mem_Icc] at hk
    dsimp only
    omega
  · intro j hj
    rw [Finset.mem_range] at hj
    rw [iclBufList_getD_eq_hist logR initLog hj]
    dsimp only
    congr 2
    omega

/-- Causality of the recursion: the infection value of day `d` only reads
`LogR` at days `≤ d`. -/
theorem iclInfected_causal (logR logR' : ℕ → ℝ) (initLog : ℝ) (d : ℕ)
    (h : ∀ d' ≤ d, logR d' = logR' d') :
    iclInfected logR initLog d = iclInfected logR' initLog d := by
  unfold iclInfected
  rw [iclBufList_congr logR logR' initLog (d + 1)
    fun d' hd' => h d' (Nat.lt_succ_iff.mp hd')]

/-! ### Further helper lemmas -/

/-- Every member of the generic observed-index loop is a well-formed
flattened index of a cell satisfying the predicate. -/
theorem mem_obsLoop_exists (nRs nDs : ℕ) (extra mask0 : ℕ → ℕ → Bool)
    {i : ℕ} (hi : i ∈ (obsLoop nRs nDs extra mask0).1) :
    ∃ r d, r < nRs ∧ d < nDs ∧ i = r * nDs + d ∧
      loopPred extra mask0 r d = true := by
  unfold obsLoop at hi
  have hspec := foldl_obsStep_spec nDs extra mask0 (cellList nRs nDs) [] mask0
    (cellList_nodup nRs nDs) (fun _ _ => rfl)
  rw [hspec.1] at hi
  simp only [List.nil_append, List.mem_map, List.mem_filter] at hi
  rcases hi with ⟨c, ⟨hmem, hpred⟩, henc⟩
  have hc := (mem_cellList nRs nDs c).mp hmem
  exact ⟨c.1, c.2, hc.1, hc.2, henc.symm, hpred⟩

theorem length_flatMap_range {α : Type} (n m : ℕ) (f : ℕ → ℕ → α) :
    ((List.range n).flatMap fun r => (List.range m).map (f r)).length =
      n * m := by
  induction n with
  | zero => simp
  | succ n ih =>
    rw [List.range_succ, List.flatMap_append, List.length_append, ih]
    simp [Nat.succ_mul]

theorem flatData_length (D : Dataset) (a : ℕ → ℕ → ℚ) :
    (flatData D a).length = D.nRs * D.nDs :=
  length_flatMap_range D.nRs D.nDs a

/-! ### The claims -/

/-- **C1** (amended).  In the variants sharing the standard observed-index
routine (`CMCombined_Final`, `_DifDelays`, `_V3`, `_NoNoise`, `_Additive`,
`_DifEffects` — and `CMActive_Final` for the cases channel), the flattened
index `r * nDs + d` enters the cases index list iff the upstream mask at
`(r, d)` is False, `d > CMDelayCut`, `Confirmed[r, d]` is not NaN and
`d < nDs - 7`; it enters the deaths index list iff the mask is False,
`d > CMDelayCut` and `Deaths[r, d]` is not NaN (no trailing-week
exclusion); and every cell failing its test has its mask flag set to
excluded.  The original claim's "every model variant" fails: the ICL
variant flattens as `r * nODs + d` over days `≥ CMDelayCut` with no
trailing-week exclusion, and `CMDeath_Final` never sets the mask (see the
counterexample). -/
theorem claim_C1 (D : Dataset) {r d : ℕ} (hr : r < D.nRs) (hd : d < D.nDs) :
    ((r * D.nDs + d) ∈ allObservedActive D ↔
      (D.newCasesMask r d = false ∧ CMDelayCut < d ∧
        D.confirmedIsNaN r d = false ∧ d + 7 < D.nDs)) ∧
    ((r * D.nDs + d) ∈ allObservedDeaths D ↔
      (D.newDeathsMask r d = false ∧ CMDelayCut < d ∧
        D.deathsIsNaN r d = false)) ∧
    (casesPred D r d = false → (observedActiveLoop D).2 r d = true) ∧
    (deathsPred D r d = false → (observedDeathsLoop D).2 r d = true) := by
  have hc := mem_obsLoop D.nRs D.nDs (casesExtra D) D.newCasesMask hr hd
  have hdth := mem_obsLoop D.nRs D.nDs (deathsExtra D) D.newDeathsMask hr hd
  have hcm := obsLoop_mask D.nRs D.nDs (casesExtra D) D.newCasesMask hr hd
  have hdm := obsLoop_mask D.nRs D.nDs (deathsExtra D) D.newDeathsMask hr hd
  refine ⟨?_, ?_, ?_, ?_⟩
  · rw [allObservedActive, observedActiveLoop, hc]
    simp [loopPred, casesExtra, Bool.and_eq_true, Bool.not_eq_true',
      decide_eq_true_eq, and_assoc]
  · rw [allObservedDeaths, observedDeathsLoop, hdth]
    simp [loopPred, deathsExtra, Bool.and_eq_true, Bool.not_eq_true',
      decide_eq_true_eq, and_assoc]
  · intro hfail
    rw [observedActiveLoop, hcm]
    have hp : loopPred (casesExtra D) D.newCasesMask r d = casesPred D r d := rfl
    rw [hp, hfail]
    rfl
  · intro hfail
    rw [observedDeathsLoop, hdm]
    have hp : loopPred (deathsExtra D) D.newDeathsMask r d = deathsPred D r d := rfl
    rw [hp, hfail]
    rfl

/-- Witness for C1 at the concrete dataset `D1`, region 0, day 31. -/
theorem claim_C1_witness :
    ((0 * D1.nDs + 31) ∈ allObservedActive D1 ↔
      (D1.newCasesMask 0 31 = false ∧ CMDelayCut < 31 ∧
        D1.confirmedIsNaN 0 31 = false ∧ 31 + 7 < D1.nDs)) ∧
    ((0 * D1.nDs + 31) ∈ allObservedDeaths D1 ↔
      (D1.newDeathsMask 0 31 = false ∧ CMDelayCut < 31 ∧
        D1.deathsIsNaN 0 31 = false)) ∧
    (casesPred D1 0 31 = false → (observedActiveLoop D1).2 0 31 = true) ∧
    (deathsPred D1 0 31 = false → (observedDeathsLoop D1).2 0 31 = true) :=
  claim_C1 D1 (by decide) (by decide)

/-- **C1, counterexample to the original claim.**  On `D0` (1 region, 38
days, nothing masked, no NaNs) the claimed predicate admits no cases cell
at all (`d > 30` and `d < 38 - 7 = 31` is empty); yet the ICL variant's
index list contains all eight observed days — including day 30
(`= CMDelayCut`, index `0 * nODs + 0 = 0`) and the trailing week — and the
ICL loop leaves the mask of the "failing" day-30 cell untouched. -/
theorem claim_C1_counterexample :
    iclAllObservedActive D0 = [0, 1, 2, 3, 4, 5, 6, 7] ∧
    (List.range D0.nDs).filter (fun d => casesPred D0 0 d) = [] ∧
    (iclObservedActiveLoop D0).2 0 30 = false := by
  refine ⟨?_, ?_, ?_⟩ <;> decide

/-- **C2** (confirmed).  `ExpectedGrowth[r, d] = si_beta *
(exp(ExpectedLogR[r, d] / si_alpha) - 1)` with `si_beta = mean / var` and
`si_alpha = mean^2 / var` where `var = sigma^2` is the serial-interval
variance; and a zero `ExpectedLogR` field yields exactly zero growth. -/
theorem claim_C2 (mean sigma : ℝ) (logR : ℕ → ℕ → ℝ) (r d : ℕ) :
    expectedGrowth mean sigma logR r d =
      (mean / sigma ^ 2) *
        (Real.exp (logR r d / (mean ^ 2 / sigma ^ 2)) - 1) ∧
    expectedGrowth mean sigma (fun _ _ => 0) r d = 0 := by
  refine ⟨rfl, ?_⟩
  simp [expectedGrowth, si_beta, si_alpha, Real.exp_zero]

/-- **C3** (confirmed).  In the ICL variant, for every channel `c`, region
`r` and observed day `d`, `Infected[c, r, d] = exp(LogR[c, r, d]) *
sum_{k=1..|SI|} hist(d, k) * SI[k]` (1-based `SI[k]` written `SIr (k-1)`),
where `hist(d, k)` is the infection value of day `d - k` for `k ≤ d`, the
seed `exp(InitialSize_log)` for the 7 (`conv_padding`) days immediately
before day 0, and zero earlier; and the recursion is causal: `Infected`
at day `d` does not depend on `LogR` at any later day. -/
theorem claim_C3 (logR logR' : ℕ → ℕ → ℕ → ℝ) (initLog : ℕ → ℕ → ℝ)
    (c r d : ℕ) (h : ∀ d' ≤ d, logR c r d' = logR' c r d') :
    iclInfectedCRD logR initLog c r d =
      Real.exp (logR c r d) *
        ∑ k ∈ Finset.Icc 1 SIsize,
          iclHist (logR c r) (initLog c r) d k * SIr (k - 1) ∧
    iclInfectedCRD logR initLog c r d = iclInfectedCRD logR' initLog c r d :=
  ⟨iclInfected_renewal (logR c r) (initLog c r) d,
   iclInfected_causal (logR c r) (logR' c r) (initLog c r) d h⟩

/-- Witness for C3 at the zero `LogR` field, channel 0, region 0, day 2. -/
theorem claim_C3_witness :
    iclInfectedCRD (fun _ _ _ => (0 : ℝ)) (fun _ _ => 0) 0 0 2 =
      Real.exp 0 *
        ∑ k ∈ Finset.Icc 1 SIsize,
          iclHist (fun _ => (0 : ℝ)) 0 2 k * SIr (k - 1) ∧
    iclInfectedCRD (fun _ _ _ => (0 : ℝ)) (fun _ _ => 0) 0 0 2 =
      iclInfectedCRD (fun _ _ _ => (0 : ℝ)) (fun _ _ => 0) 0 0 2 :=
  claim_C3 (fun _ _ _ => 0) (fun _ _ => 0) (fun _ _ => 0) 0 0 2
    (fun _ _ => rfl)

/-- **C4** (amended).  `short_rs` (summed `Symptomatic Testing` activity
`> 1`) and `long_rs` (summed activity `< 1`) are always disjoint, and they
cover every region index whenever no region's summed activity equals
exactly 1.  The original "for every input dataset ... no omission" fails: a
region whose summed activity is exactly 1 (e.g. active on a single day) is
in neither list (see the counterexample). -/
theorem claim_C4 (D : Dataset) (t : ℕ) :
    short_rs D t ∩ long_rs D t = [] ∧
    ∀ r < D.nRs, testingSum D t r ≠ 1 →
      r ∈ short_rs D t ∨ r ∈ long_rs D t := by
  constructor
  · rw [List.eq_nil_iff_forall_not_mem]
    intro r hr
    rw [List.mem_inter_iff] at hr
    have h1 := (List.mem_filter.mp hr.1).2
    have h2 := (List.mem_filter.mp hr.2).2
    rw [decide_eq_true_eq] at h1 h2
    exact absurd (h1.trans h2) (lt_irrefl 1)
  · intro r hrR hne
    rcases lt_or_gt_of_ne hne with hlt | hgt
    · right
      rw [long_rs, List.mem_filter]
      exact ⟨List.mem_range.mpr hrR, decide_eq_true hlt⟩
    · left
      rw [short_rs, List.mem_filter]
      exact ⟨List.mem_range.mpr hrR, decide_eq_true hgt⟩

/-- Witness for C4 on `D4` (activity sums 3 and 0, neither equal to 1). -/
theorem claim_C4_witness :
    short_rs D4 0 ∩ long_rs D4 0 = [] ∧
    (0 ∈ short_rs D4 0 ∨ 0 ∈ long_rs D4 0) := by
  have hs0 : testingSum D4 0 0 = 3 := by
    rw [testingSum]
    have h40 : D4.nDs = 40 := rfl
    rw [h40]
    simp only [Finset.sum_range_succ, Finset.sum_range_zero]
    norm_num [D4]
  exact ⟨(claim_C4 D4 0).1,
    (claim_C4 D4 0).2 0 (by norm_num [D4]) (by rw [hs0]; norm_num)⟩

/-- **C4, counterexample to the original claim.**  On `D4b` the single
region has summed `Symptomatic Testing` activity exactly 1, so both
`short_rs` (`> 1`) and `long_rs` (`< 1`) are empty: region 0 is omitted
and the two lists are not a partition of the region indices. -/
theorem claim_C4_counterexample :
    D4b.nRs = 1 ∧ short_rs D4b 0 = [] ∧ long_rs D4b 0 = [] := by
  have hs : testingSum D4b 0 0 = 1 := by
    rw [testingSum]
    have h40 : D4b.nDs = 40 := rfl
    rw [h40]
    simp only [Finset.sum_range_succ, Finset.sum_range_zero]
    norm_num [D4b]
  have hR : D4b.nRs = 1 := rfl
  refine ⟨rfl, ?_, ?_⟩
  · rw [short_rs, hR]
    have hr1 : List.range 1 = [0] := by decide
    rw [hr1]
    simp [hs]
  · rw [long_rs, hR]
    have hr1 : List.range 1 = [0] := by decide
    rw [hr1]
    simp [hs]

/-- **C5** (amended).  In every variant that declares `CM_Alpha` (all
except `CMCombined_Additive`), `CMReduction = exp(-CM_Alpha)` per NPI and
per draw, and `CM_Alpha = 0` gives `CMReduction = 1`.  The additive variant
instead sets `CMReduction = CM_Beta = AllBeta[1:]`, the Dirichlet weight
itself, not an exponential of any coefficient (see the counterexample). -/
theorem claim_C5 (cmAlpha allBeta : ℕ → ℝ) (i : ℕ) :
    cmReduction cmAlpha i = Real.exp (-(cmAlpha i)) ∧
    cmReduction (fun _ => 0) i = 1 ∧
    cmReductionAdditive allBeta i = allBeta (i + 1) := by
  refine ⟨?_, ?_, rfl⟩
  · rw [cmReduction, neg_one_mul]
  · simp [cmReduction]

/-- **C5, counterexample to the original claim.**  At the valid Dirichlet
draw `AllBeta = (1/2, 1/2)` (one NPI), the additive variant's
`CMReduction[0]` is the weight `1/2` itself, which is not
`exp(-CM_Alpha)` for the corresponding coefficient value `1/2`:
`exp(-1/2) ≠ 1/2`. -/
theorem claim_C5_counterexample :
    cmReductionAdditive (fun _ => (1 : ℝ) / 2) 0 = 1 / 2 ∧
    Real.exp (-((1 : ℝ) / 2)) ≠ 1 / 2 := by
  refine ⟨rfl, ?_⟩
  have hlog : (1 : ℝ) / 2 < Real.log 2 := by
    have := Real.log_two_gt_d9
    linarith
  have h0 : (0 : ℝ) < 1 / 2 := by norm_num
  have hkey : Real.log (1 / 2) < -((1 : ℝ) / 2) := by
    rw [one_div, Real.log_inv]
    linarith
  have hgt : (1 : ℝ) / 2 < Real.exp (-((1 : ℝ) / 2)) := by
    calc (1 : ℝ) / 2 = Real.exp (Real.log (1 / 2)) := (Real.exp_log h0).symm
    _ < Real.exp (-((1 : ℝ) / 2)) := Real.exp_lt_exp.mpr hkey
  exact ne_of_gt hgt

/-- **C6** (confirmed).  A region `r` whose deaths channel is entirely
unusable (every day masked upstream or with NaN cumulative `Deaths`)
contributes no index to `all_observed_deaths`; moreover every index in
`all_observed_deaths` is within bounds of the `nRs * nDs`-flattened data
array, so the likelihood gather succeeds (the channel simply contributes
no terms). -/
theorem claim_C6 (D : Dataset) (r : ℕ)
    (h : ∀ d < D.nDs, D.newDeathsMask r d = true ∨ D.deathsIsNaN r d = true) :
    (∀ d < D.nDs, (r * D.nDs + d) ∉ allObservedDeaths D) ∧
    (∀ i ∈ allObservedDeaths D, i < D.nRs * D.nDs) ∧
    (npFancyIndex (flatData D D.newDeaths) (allObservedDeaths D)).isSome
      = true := by
  have hbound : ∀ i ∈ allObservedDeaths D, i < D.nRs * D.nDs := by
    intro i hi
    rcases mem_obsLoop_exists D.nRs D.nDs (deathsExtra D) D.newDeathsMask hi
      with ⟨r', d', hr', hd', rfl, _⟩
    calc r' * D.nDs + d' < r' * D.nDs + D.nDs := by omega
    _ = (r' + 1) * D.nDs := by ring
    _ ≤ D.nRs * D.nDs := Nat.mul_le_mul_right _ hr'
  refine ⟨?_, hbound, ?_⟩
  · intro d hd hmem
    by_cases hrR : r < D.nRs
    · rcases mem_obsLoop_exists D.nRs D.nDs (deathsExtra D) D.newDeathsMask
        hmem with ⟨r', d', hr', hd', henc, hpred⟩
      rcases flat_index_inj hd hd' henc with ⟨hre, hde⟩
      rw [← hre, ← hde] at hpred
      rcases h d hd with hm | hn
      · simp [loopPred, hm] at hpred
      · simp [loopPred, deathsExtra, hn] at hpred
    · have hge : D.nRs * D.nDs ≤ r * D.nDs + d :=
        le_trans (Nat.mul_le_mul_right _ (not_lt.mp hrR))
          (Nat.le_add_right _ _)
      have := hbound _ hmem
      omega
  · unfold npFancyIndex
    rw [if_pos]
    · rfl
    · rw [List.all_eq_true]
      intro i hi
      rw [flatData_length]
      exact decide_eq_true (hbound i hi)

/-- Witness for C6 on `D6`, whose region 0 deaths series is fully masked. -/
theorem claim_C6_witness :
    (0 * D6.nDs + 35) ∉ allObservedDeaths D6 ∧
    (npFancyIndex (flatData D6 D6.newDeaths) (allObservedDeaths D6)).isSome
      = true :=
  ⟨(claim_C6 D6 0 (fun _ _ => Or.inl rfl)).1 35 (by decide),
   (claim_C6 D6 0 (fun _ _ => Or.inl rfl)).2.2⟩

/-- **C7** (amended).  No clamping is performed anywhere: `InfectedCases =
exp(InitialSize_log + cumsum(Growth))` exactly, so the value is unbounded —
for every bound `B` there is an `InitialSize_log` draw (well inside the
`Normal(0, 50)` prior's support) whose infection value exceeds `B`.  The
original claim that the exponential "is clamped to a safe finite range
before the result is used" fails: see the counterexample, where the value
exceeds `2^1024`, beyond the largest finite IEEE-754 double. -/
theorem claim_C7 (B : ℝ) :
    ∃ s : ℝ, B < infectedCases (fun _ => s) (fun _ _ => 0) 0 0 := by
  refine ⟨Real.log (max B 1) + 1, ?_⟩
  have hM : (0 : ℝ) < max B 1 := lt_of_lt_of_le one_pos (le_max_right B 1)
  have hval : infectedCases (fun _ => Real.log (max B 1) + 1)
      (fun _ _ => 0) 0 0 = (max B 1) * Real.exp 1 := by
    simp [infectedCases, Real.exp_add, Real.exp_log hM]
  rw [hval]
  have he : (1 : ℝ) < Real.exp 1 := by
    have := Real.add_one_le_exp (1 : ℝ)
    linarith
  calc B ≤ max B 1 := le_max_left B 1
  _ < max B 1 * Real.exp 1 := (lt_mul_iff_one_lt_right hM).mpr he

/-- **C7, counterexample to the original claim.**  With
`InitialSize_log = 1000` and zero growth, `InfectedCases = exp(1000)`,
which exceeds `2^1024 > 1.79e308`, the largest finite IEEE-754 double: the
deterministic quantity is not clamped to any float-representable range, so
the float64 evaluation of the claimed-safe expression overflows to `Inf`. -/
theorem claim_C7_counterexample :
    (2 : ℝ) ^ (1024 : ℕ) < infectedCases (fun _ => 1000) (fun _ _ => 0) 0 0 := by
  have hval : infectedCases (fun _ => (1000 : ℝ)) (fun _ _ => 0) 0 0 =
      Real.exp 1000 := by
    simp [infectedCases]
  rw [hval]
  have h2 : (2 : ℝ) ^ (1024 : ℕ) = Real.exp ((1024 : ℕ) * Real.log 2) := by
    rw [Real.exp_nat_mul, Real.exp_log (by norm_num : (0 : ℝ) < 2)]
  rw [h2]
  apply Real.exp_lt_exp.mpr
  have := Real.log_two_lt_d9
  push_cast
  linarith

set_option maxRecDepth 16000 in
/-- **C8** (code bug).  The fixed-`deaths_noise` branch gathers its
observed values from `NewDeaths.data[:, CMDelayCut:]` reshaped to
`(nORs * nDs,)` — but that slice has only `nORs * (nDs - 30)` elements, so
the reshape fails (numpy raises `ValueError`); the learned-`Phi` branch,
which reshapes the unsliced array, succeeds on the same dataset and
gathers the 9 unmasked late-window values. -/
theorem claim_C8 :
    observedDeathsFixedNoise D1 = none ∧
    observedDeathsLearned D1 = some (List.replicate 9 2) := by
  constructor <;> decide

/-- **C9** (amended).  Construction does NOT leave the caller's masks
unchanged: after the observed-index loops, `NewCases.mask[r, d]` (resp.
`NewDeaths.mask[r, d]`) equals the negation of the corresponding inclusion
predicate — the dataset's mask arrays are mutated in place, so a variant
built later from the same dataset object sees the tightened masks.  The
original claim (masks unchanged / private copy) fails: see the
counterexample. -/
theorem claim_C9 (D : Dataset) {r d : ℕ} (hr : r < D.nRs) (hd : d < D.nDs) :
    (observedActiveLoop D).2 r d = !(casesPred D r d) ∧
    (observedDeathsLoop D).2 r d = !(deathsPred D r d) :=
  ⟨obsLoop_mask D.nRs D.nDs (casesExtra D) D.newCasesMask hr hd,
   obsLoop_mask D.nRs D.nDs (deathsExtra D) D.newDeathsMask hr hd⟩

/-- Witness for C9 at `D1`, region 0, day 0. -/
theorem claim_C9_witness :
    (observedActiveLoop D1).2 0 0 = !(casesPred D1 0 0) ∧
    (observedDeathsLoop D1).2 0 0 = !(deathsPred D1 0 0) :=
  claim_C9 D1 (by decide) (by decide)

set_option maxRecDepth 16000 in
/-- **C9, counterexample to the original claim.**  On `D1` the caller's
`NewCases.mask[0, 0]` is `False` before construction, but after the
observed-index loop the mask at `(0, 0)` is `True` (day 0 fails
`d > CMDelayCut`): the mask array does not hold the same values after
construction. -/
theorem claim_C9_counterexample :
    D1.newCasesMask 0 0 = false ∧ (observedActiveLoop D1).2 0 0 = true := by
  constructor <;> decide

/-- **C10** (confirmed).  `CMCombined_Final_DifDelays.__init__` zeroes the
`Symptomatic Testing` row of the caller's `ActiveCMs` in place after
computing `short_rs` / `long_rs`; consequently, in any model built from
the mutated tensor, `GrowthReduction` is unchanged under arbitrary changes
of the testing NPI's `CM_Alpha` coefficient — that NPI contributes exactly
zero. -/
theorem claim_C10 (D : Dataset) (t nCMs : ℕ) (alpha alpha' : ℕ → ℝ)
    (r d : ℕ) (h : ∀ i, i ≠ t → alpha i = alpha' i) :
    difDelaysActiveCMs D t r t d = 0 ∧
    growthReduction nCMs alpha (difDelaysActiveCMs D t) r d =
      growthReduction nCMs alpha' (difDelaysActiveCMs D t) r d := by
  constructor
  · simp [difDelaysActiveCMs]
  · unfold growthReduction
    refine Finset.sum_congr rfl ?_
    intro i _
    by_cases hit : i = t
    · subst hit
      simp [difDelaysActiveCMs]
    · rw [h i hit]

/-- Witness for C10 on `D4` with the testing NPI's coefficient changed
from 0 to 5. -/
theorem claim_C10_witness :
    difDelaysActiveCMs D4 0 0 0 0 = 0 ∧
    growthReduction 1 (fun _ => (0 : ℝ)) (difDelaysActiveCMs D4 0) 0 0 =
      growthReduction 1 (fun i => if i = 0 then (5 : ℝ) else 0)
        (difDelaysActiveCMs D4 0) 0 0 :=
  claim_C10 D4 0 1 (fun _ => 0) (fun i => if i = 0 then 5 else 0) 0 0
    (fun i hi => by simp [hi])

end Epimodel
